import Mathlib

/-!
Shallow embedding of the Semantic Task Store of `ReceiptPrinterAgent`
(`src/src/database/task_db.py`), together with the ingestion-time
deduplication policy of its callers (`src/agent.py` `main`,
`src/src/dashboard/app.py` `_check_emails_for_tasks`), and proofs about it.

Modelling conventions:
* SQLite floats become `ℚ`.
* SQLite `TEXT` comparison (`ORDER BY created_at DESC`) is memcmp on the
  stored bytes; for the ASCII ISO-8601 timestamps the store writes, this is
  lexicographic comparison of the character sequences, modelled by
  `charListLe` on `String.data`.  SQLite's `ORDER BY` specifies no order
  among rows with equal keys; the model resolves ties the way a stable sort
  over the table-scan (ascending `rowid`) order does, which is the tie order
  the `ORDER BY created_at DESC` queries of the source actually see.
* The embedding provider (`generate_embedding`) performs network I/O; it is
  modelled as a parameter `embed : String → Option (List ℚ)` giving the
  outcome of each call, where `none` is the "no client configured, or the
  call raised" outcome (the Python function returns `None` in both cases).
* `vector_distance_cos` of libsql is modelled as a parameter
  `dist : List ℚ → List ℚ → ℚ`; its numeric value is irrelevant to the
  claims.  libsql raises on a dimension mismatch between the query vector
  and a stored vector; the model's `vector_query` returns `Except.error`
  exactly then.  The Python `try/except` around the vector search becomes a
  `match` on that `Except`.
* `datetime.now().isoformat()` is modelled by explicit timestamp arguments:
  `add_task` calls it twice (once for the `INSERT`, once for the returned
  `TaskRecord`), so it takes two timestamp parameters `t1` and `t2`.
-/

/-- Lexicographic (memcmp-style) comparison of character sequences, the
order SQLite uses for `TEXT` values such as `created_at`. -/
def charListLe : List Char → List Char → Bool
  | [], _ => true
  | _ :: _, [] => false
  | a :: as, b :: bs =>
    if a.toNat < b.toNat then true
    else if b.toNat < a.toNat then false
    else charListLe as bs

/-- `a ≤ b` on SQLite `TEXT` values. -/
def text_le (a b : String) : Bool := charListLe a.data b.data

theorem charListLe_refl (a : List Char) : charListLe a a = true := by
  induction a with
  | nil => rfl
  | cons x xs ih => simp [charListLe, ih]

theorem charListLe_false_of (a b : List Char) (h : charListLe a b = false) :
    charListLe b a = true := by
  induction a generalizing b with
  | nil => simp [charListLe] at h
  | cons x xs ih =>
    cases b with
    | nil => rfl
    | cons y ys =>
      simp only [charListLe] at h ⊢
      split at h
      · simp at h
      · split at h
        · rename_i hyx; simp [hyx]
        · rename_i hxy hyx
          have hxz : y.toNat = x.toNat := by omega
          simp only [hxz, Nat.lt_irrefl, if_false]
          exact ih ys h

theorem charListLe_trans {a b c : List Char} (h1 : charListLe a b = true)
    (h2 : charListLe b c = true) : charListLe a c = true := by
  induction a generalizing b c with
  | nil => rfl
  | cons x xs ih =>
    cases b with
    | nil => simp [charListLe] at h1
    | cons y ys =>
      cases c with
      | nil => simp [charListLe] at h2
      | cons z zs =>
        simp only [charListLe] at h1 h2 ⊢
        split at h1
        · rename_i hxy
          split at h2
          · rename_i hyz; simp [Nat.lt_trans hxy hyz]
          · split at h2
            · simp at h2
            · rename_i hzy hyz
              have hyz' : y.toNat = z.toNat := by omega
              simp [hyz' ▸ hxy]
        · split at h1
          · simp at h1
          · rename_i hyx hxy
            have hxy' : x.toNat = y.toNat := by omega
            split at h2
            · rename_i hyz; simp [hxy' ▸ hyz]
            · split at h2
              · simp at h2
              · rename_i hzy hyz
                have hxz : x.toNat = z.toNat := by omega
                simp only [hxz, Nat.lt_irrefl, if_false]
                exact ih h1 h2

theorem charListLe_eq_of_eq {a b : List Char} (h : a = b) : charListLe a b = true := by
  subst h; exact charListLe_refl a

/-- Insert `a` into `l` before the first element `b` with `le a b`.  This is
the insertion step of a stable sort: among elements the comparison cannot
distinguish, earlier list elements stay earlier. -/
def insertSorted (le : α → α → Bool) (a : α) : List α → List α
  | [] => [a]
  | b :: l => if le a b then a :: b :: l else b :: insertSorted le a l

/-- Stable insertion sort; models a SQL `ORDER BY` applied to rows arriving
in table-scan order. -/
def sortBy (le : α → α → Bool) : List α → List α
  | [] => []
  | a :: l => insertSorted le a (sortBy le l)

theorem perm_insertSorted (le : α → α → Bool) (a : α) (l : List α) :
    List.Perm (insertSorted le a l) (a :: l) := by
  induction l with
  | nil => exact List.Perm.refl _
  | cons b l ih =>
    simp only [insertSorted]
    split
    · exact List.Perm.refl _
    · exact (List.Perm.cons b ih).trans (List.Perm.swap a b l)

theorem perm_sortBy (le : α → α → Bool) (l : List α) :
    List.Perm (sortBy le l) l := by
  induction l with
  | nil => exact List.Perm.refl _
  | cons a l ih =>
    exact (perm_insertSorted le a (sortBy le l)).trans (List.Perm.cons a ih)

theorem mem_sortBy {le : α → α → Bool} {l : List α} {x : α} :
    x ∈ sortBy le l ↔ x ∈ l :=
  (perm_sortBy le l).mem_iff

theorem length_sortBy (le : α → α → Bool) (l : List α) :
    (sortBy le l).length = l.length :=
  (perm_sortBy le l).length_eq

theorem pairwise_le_insertSorted {le : α → α → Bool} {a : α} {l : List α}
    (htot : ∀ x y, le x y = false → le y x = true)
    (htrans : ∀ x y z, le x y = true → le y z = true → le x z = true)
    (hl : l.Pairwise (fun x y => le x y = true)) :
    (insertSorted le a l).Pairwise (fun x y => le x y = true) := by
  induction l with
  | nil => simp [insertSorted]
  | cons b l ih =>
    rw [List.pairwise_cons] at hl
    obtain ⟨hb, hl⟩ := hl
    simp only [insertSorted]
    split
    · rename_i hab
      refine List.pairwise_cons.mpr ⟨?_, List.pairwise_cons.mpr ⟨hb, hl⟩⟩
      intro x hx
      rcases List.mem_cons.mp hx with hx | hx
      · subst hx; exact hab
      · exact htrans a b x hab (hb x hx)
    · rename_i hab
      refine List.pairwise_cons.mpr ⟨?_, ih hl⟩
      intro x hx
      have hx' := (perm_insertSorted le a l).mem_iff.mp hx
      rcases List.mem_cons.mp hx' with hx2 | hx2
      · rw [hx2]
        exact htot a b (Bool.eq_false_iff.mpr hab)
      · exact hb x hx2

theorem pairwise_le_sortBy {le : α → α → Bool} (l : List α)
    (htot : ∀ x y, le x y = false → le y x = true)
    (htrans : ∀ x y z, le x y = true → le y z = true → le x z = true) :
    (sortBy le l).Pairwise (fun x y => le x y = true) := by
  induction l with
  | nil => simp [sortBy]
  | cons a l ih => exact pairwise_le_insertSorted htot htrans ih

theorem pairwise_insertSorted {le : α → α → Bool} {Q : α → α → Prop} {a : α} {l : List α}
    (hvac : ∀ x y, le x y = false → Q y x)
    (hQl : l.Pairwise Q) (hQa : ∀ b ∈ l, Q a b) :
    (insertSorted le a l).Pairwise Q := by
  induction l with
  | nil => simp [insertSorted, List.pairwise_cons]
  | cons b l ih =>
    rw [List.pairwise_cons] at hQl
    obtain ⟨hQb, hQl⟩ := hQl
    simp only [insertSorted]
    split
    · refine List.pairwise_cons.mpr ⟨?_, List.pairwise_cons.mpr ⟨hQb, hQl⟩⟩
      intro x hx
      rcases List.mem_cons.mp hx with hx2 | hx2
      · rw [hx2]; exact hQa b (List.mem_cons_self b l)
      · exact hQa x (List.mem_cons_of_mem b hx2)
    · rename_i hab
      refine List.pairwise_cons.mpr
        ⟨?_, ih hQl (fun x hx => hQa x (List.mem_cons_of_mem b hx))⟩
      intro x hx
      have hx' := (perm_insertSorted le a l).mem_iff.mp hx
      rcases List.mem_cons.mp hx' with hx2 | hx2
      · rw [hx2]
        exact hvac a b (Bool.eq_false_iff.mpr hab)
      · exact hQb x hx2

theorem pairwise_sortBy {le : α → α → Bool} {Q : α → α → Prop} (l : List α)
    (hvac : ∀ x y, le x y = false → Q y x)
    (hQ : l.Pairwise Q) :
    (sortBy le l).Pairwise Q := by
  induction l with
  | nil => simp [sortBy]
  | cons a l ih =>
    rw [List.pairwise_cons] at hQ
    obtain ⟨ha, hQ⟩ := hQ
    exact pairwise_insertSorted hvac (ih hQ) (fun b hb => ha b (mem_sortBy.mp hb))

/-- `TaskRecord` of `task_db.py`: the dataclass with its default values.
Python `float` fields are modelled as `ℚ`. -/
structure TaskRecord where
  id : Option Nat := none
  name : String := ""
  priority : Int := 2
  due_date : String := ""
  created_at : String := ""
  embedding : Option (List ℚ) := none
  email_context : Option String := none
  similarity_distance : Option ℚ := none
deriving Repr, DecidableEq

/-- One row of the `tasks` table (columns of the `CREATE TABLE` statement in
`_create_tables`).  `id` is the `INTEGER PRIMARY KEY AUTOINCREMENT` column;
`embedding` is the nullable `F32_BLOB` column. -/
structure Row where
  id : Nat
  name : String
  priority : Int
  due_date : String
  created_at : String
  email_context : Option String
  embedding : Option (List ℚ)
deriving Repr, DecidableEq

/-- State of the backing SQLite/Turso database.  `tables` and `indexes` hold
the names of existing schema objects (for the `CREATE ... IF NOT EXISTS`
statements of `_create_tables`); `rows` is the `tasks` table in table-scan
(ascending `rowid`) order; `nextId` is the `AUTOINCREMENT` counter, so ids
are monotone and never reused after deletion. -/
structure TaskDatabase where
  tables : List String := []
  indexes : List String := []
  rows : List Row := []
  nextId : Nat := 1
deriving Repr, DecidableEq

/-- Outcome of `generate_embedding` for each input text: `none` models both
"no embedding client configured" and "the provider call raised" (the Python
function returns `None` in both cases). -/
def Embed : Type := String → Option (List ℚ)

/-- The `vector_distance_cos` metric of libsql, abstracted: the claims under
verification do not depend on its numeric values, only on its presence. -/
def DistFn : Type := List ℚ → List ℚ → ℚ

/-- `_create_tables`: `CREATE TABLE IF NOT EXISTS tasks (...)` followed by
`CREATE INDEX IF NOT EXISTS tasks_embedding_idx ...`.  Each statement
creates its object only when absent and never touches existing rows. -/
def create_tables (db : TaskDatabase) : TaskDatabase :=
  let ts := if "tasks" ∈ db.tables then db.tables else db.tables ++ ["tasks"]
  let ix := if "tasks_embedding_idx" ∈ db.indexes then db.indexes
            else db.indexes ++ ["tasks_embedding_idx"]
  { db with tables := ts, indexes := ix }

/-- The text `add_task` embeds: `f"{task.name}"`, plus
`f" Context: {email_context}"` when a context is given. -/
def embedding_text (name : String) (email_context : Option String) : String :=
  match email_context with
  | some c => name ++ " Context: " ++ c
  | none => name

/-- Python truthiness of the `embedding` value in `add_task`'s
`if embedding:` — `None` and the empty list are falsy. -/
def pyTruthy : Option (List ℚ) → Bool
  | none => false
  | some v => !v.isEmpty

/-- `add_task`: generates an embedding for the task name (plus context),
`INSERT`s a row — with the vector when the embedding is truthy, without one
otherwise — and returns a `TaskRecord` built from `cursor.lastrowid`.
`t1` is the value of the `datetime.now().isoformat()` call inside the
`INSERT`; `t2` is the value of the second `datetime.now().isoformat()` call
in the returned `TaskRecord`.  Only `task.name`, `task.priority` and
`task.due_date` are read from the candidate. -/
def add_task (embed : Embed) (db : TaskDatabase) (task : TaskRecord)
    (email_context : Option String) (t1 t2 : String) : TaskDatabase × TaskRecord :=
  let e := embed (embedding_text task.name email_context)
  let row : Row :=
    { id := db.nextId, name := task.name, priority := task.priority,
      due_date := task.due_date, created_at := t1,
      email_context := email_context,
      embedding := if pyTruthy e then e else none }
  let db' := { db with rows := db.rows ++ [row], nextId := db.nextId + 1 }
  (db', { id := some db.nextId, name := task.name, priority := task.priority,
          due_date := task.due_date, created_at := t2, embedding := e,
          email_context := email_context, similarity_distance := none })

/-- A `TaskRecord` built from a `SELECT id, name, priority, due_date,
created_at, email_context` row: no embedding, no distance. -/
def row_to_record (r : Row) : TaskRecord :=
  { id := some r.id, name := r.name, priority := r.priority,
    due_date := r.due_date, created_at := r.created_at,
    embedding := none, email_context := r.email_context,
    similarity_distance := none }

/-- ASCII lower-casing, for SQLite's default case-insensitive `LIKE`. -/
def asciiLower (c : Char) : Char :=
  if c.toNat ≥ 65 ∧ c.toNat ≤ 90 then Char.ofNat (c.toNat + 32) else c

/-- Substring containment on character lists. -/
def containsSeq (q : List Char) : List Char → Bool
  | [] => q.isEmpty
  | c :: rest => q.isPrefixOf (c :: rest) || containsSeq q rest

/-- `name LIKE '%query%'` with SQLite's default `LIKE` semantics:
ASCII-case-insensitive substring containment.  (`%`/`_` wildcards inside
the query text itself are not modelled; no claim depends on them.) -/
def likeMatch (query name : String) : Bool :=
  containsSeq (query.data.map asciiLower) (name.data.map asciiLower)

/-- Row comparison for `ORDER BY created_at DESC`: `a` comes before `b`
when `a.created_at ≥ b.created_at` in SQLite `TEXT` order. -/
def recencyLe (a b : Row) : Bool := charListLe b.created_at.data a.created_at.data

/-- `_search_tasks_by_name`: `SELECT ... FROM tasks WHERE name LIKE ?
ORDER BY created_at DESC LIMIT ?`, every result with
`similarity_distance=None`. -/
def search_tasks_by_name (db : TaskDatabase) (query : String) (limit : Nat) :
    List TaskRecord :=
  ((sortBy recencyLe (db.rows.filter (fun r => likeMatch query r.name))).take limit).map
    row_to_record

/-- `get_recent_tasks`: `SELECT ... FROM tasks ORDER BY created_at DESC
LIMIT ?`. -/
def get_recent_tasks (db : TaskDatabase) (limit : Nat) : List TaskRecord :=
  ((sortBy recencyLe db.rows).take limit).map row_to_record

/-- The rows holding a vector, paired with it — the contents of the
`tasks_embedding_idx` vector index. -/
def vector_rows (db : TaskDatabase) : List (Row × List ℚ) :=
  db.rows.filterMap (fun r => r.embedding.map (fun v => (r, v)))

/-- Ascending-distance comparison for `ORDER BY distance ASC`. -/
def distLe (p q : Row × ℚ) : Bool := decide (p.2 ≤ q.2)

/-- A similarity-search result row: carries the computed distance, no
embedding. -/
def row_dist_to_record (p : Row × ℚ) : TaskRecord :=
  { row_to_record p.1 with similarity_distance := some p.2 }

/-- The `vector_top_k` / `vector_distance_cos` query of `find_similar_tasks`
(the body of its `try:` block).  libsql raises when the query vector's
dimension differs from a stored vector's; that is the `Except.error` case.
Otherwise: the `limit` nearest rows by `dist`, ascending. -/
def vector_query (dist : DistFn) (db : TaskDatabase) (qv : List ℚ) (limit : Nat) :
    Except String (List TaskRecord) :=
  if (vector_rows db).any (fun p => p.2.length != qv.length) then
    Except.error "vector dimension mismatch"
  else
    Except.ok
      (((sortBy distLe ((vector_rows db).map (fun p => (p.1, dist p.2 qv)))).take limit).map
        row_dist_to_record)

/-- `find_similar_tasks`: embed the query; on a falsy embedding (`None`, or
empty — `if not query_embedding:`) fall back to `_search_tasks_by_name`;
otherwise run the vector query and, on any raised error (`except
Exception:`), fall back to `_search_tasks_by_name`. -/
def find_similar_tasks (embed : Embed) (dist : DistFn) (db : TaskDatabase)
    (query : String) (limit : Nat) : List TaskRecord :=
  match embed query with
  | none => search_tasks_by_name db query limit
  | some qv =>
    if qv.isEmpty then search_tasks_by_name db query limit
    else
      match vector_query dist db qv limit with
      | Except.error _ => search_tasks_by_name db query limit
      | Except.ok rs => rs

/-- `delete_task`: `DELETE FROM tasks WHERE id = ?`; the returned Boolean is
`cursor.rowcount > 0`. -/
def delete_task (db : TaskDatabase) (task_id : Nat) : TaskDatabase × Bool :=
  let rows' := db.rows.filter (fun r => r.id != task_id)
  ({ db with rows := rows' }, decide (rows'.length < db.rows.length))

/-- `complete_task`: `return self.delete_task(task_id)`. -/
def complete_task (db : TaskDatabase) (task_id : Nat) : TaskDatabase × Bool :=
  delete_task db task_id

/-- The fixed deduplication threshold `0.1` of the ingestion callers. -/
def dedup_threshold : ℚ := 1/10

/-- The duplicate test both ingestion callers apply to the result list of
their similarity consult: `similar_tasks and len(similar_tasks) > 0 and
similar_tasks[0].similarity_distance is not None and
similar_tasks[0].similarity_distance < 0.1`. -/
def dedup_is_duplicate : List TaskRecord → Bool
  | [] => false
  | r :: _ =>
    match r.similarity_distance with
    | none => false
    | some d => decide (d < dedup_threshold)

/-- The similarity consult of both ingestion callers (`agent.py` `main` and
`dashboard/app.py` `_check_emails_for_tasks`):
`db.find_similar_tasks(task.name)` — called without a `limit` argument, so
the Python default `limit=5` of `find_similar_tasks` applies. -/
def ingest_check (embed : Embed) (dist : DistFn) (db : TaskDatabase)
    (name : String) : List TaskRecord :=
  find_similar_tasks embed dist db name 5

/-- One candidate's ingestion step, shared by both callers: consult
`find_similar_tasks` on the candidate's name, skip (`continue`) when the
duplicate test fires, otherwise `add_task` the candidate (no email context
is passed at either call site).  Returns the updated database and whether
the candidate was skipped. -/
def ingest_task (embed : Embed) (dist : DistFn) (db : TaskDatabase)
    (task : TaskRecord) (t1 t2 : String) : TaskDatabase × Bool :=
  if dedup_is_duplicate (ingest_check embed dist db task.name) then (db, true)
  else ((add_task embed db task none t1 t2).1, false)

theorem mem_search_tasks_by_name {db : TaskDatabase} {q : String} {lim : Nat}
    {r : TaskRecord} (h : r ∈ search_tasks_by_name db q lim) :
    ∃ row ∈ db.rows, r = row_to_record row := by
  unfold search_tasks_by_name at h
  obtain ⟨p, hp, hpr⟩ := List.mem_map.mp h
  have hp2 : p ∈ sortBy recencyLe (db.rows.filter (fun r => likeMatch q r.name)) :=
    List.mem_of_mem_take hp
  have hp3 := mem_sortBy.mp hp2
  exact ⟨p, List.mem_of_mem_filter hp3, hpr.symm⟩

theorem mem_get_recent_tasks {db : TaskDatabase} {lim : Nat}
    {r : TaskRecord} (h : r ∈ get_recent_tasks db lim) :
    ∃ row ∈ db.rows, r = row_to_record row := by
  unfold get_recent_tasks at h
  obtain ⟨p, hp, hpr⟩ := List.mem_map.mp h
  exact ⟨p, mem_sortBy.mp (List.mem_of_mem_take hp), hpr.symm⟩

theorem mem_vector_query {dist : DistFn} {db : TaskDatabase} {qv : List ℚ}
    {lim : Nat} {rs : List TaskRecord} (hok : vector_query dist db qv lim = Except.ok rs)
    {r : TaskRecord} (h : r ∈ rs) :
    ∃ row ∈ db.rows, r.id = some row.id ∧ ∃ d : ℚ, r = { row_to_record row with similarity_distance := some d } := by
  unfold vector_query at hok
  split at hok
  · exact absurd hok (by simp)
  · obtain ⟨rs'⟩ := hok
    obtain ⟨p, hp, hpr⟩ := List.mem_map.mp h
    have hp2 := mem_sortBy.mp (List.mem_of_mem_take hp)
    obtain ⟨p0, hp0, hp0e⟩ := List.mem_map.mp hp2
    obtain ⟨row, hrow, hre⟩ := List.mem_filterMap.mp hp0
    cases hv : row.embedding with
    | none => rw [hv] at hre; simp [Option.map] at hre
    | some v =>
      rw [hv] at hre
      simp only [Option.map, Option.some.injEq] at hre
      refine ⟨row, hrow, ?_, dist v qv, ?_⟩
      · rw [← hpr, ← hp0e, ← hre]
        rfl
      · rw [← hpr, ← hp0e, ← hre]
        rfl

theorem mem_find_similar_tasks {embed : Embed} {dist : DistFn} {db : TaskDatabase}
    {q : String} {lim : Nat} {r : TaskRecord} (h : r ∈ find_similar_tasks embed dist db q lim) :
    ∃ row ∈ db.rows, r.id = some row.id := by
  unfold find_similar_tasks at h
  cases hq : embed q with
  | none =>
    rw [hq] at h
    obtain ⟨row, hrow, hre⟩ := mem_search_tasks_by_name h
    exact ⟨row, hrow, by rw [hre]; rfl⟩
  | some qv =>
    rw [hq] at h
    dsimp only at h
    by_cases hqe : qv.isEmpty = true
    · rw [if_pos hqe] at h
      obtain ⟨row, hrow, hre⟩ := mem_search_tasks_by_name h
      exact ⟨row, hrow, by rw [hre]; rfl⟩
    · rw [if_neg hqe] at h
      cases hvq : vector_query dist db qv lim with
      | error e =>
        rw [hvq] at h
        obtain ⟨row, hrow, hre⟩ := mem_search_tasks_by_name h
        exact ⟨row, hrow, by rw [hre]; rfl⟩
      | ok rs =>
        rw [hvq] at h
        obtain ⟨row, hrow, hid, _⟩ := mem_vector_query hvq h
        exact ⟨row, hrow, hid⟩

/-! Concrete fixtures used by counterexamples and witnesses. -/

/-- Provider with no configured client: every call yields `None`. -/
def embedNoneF : Embed := fun _ => none

/-- A degenerate distance metric for concrete instantiations. -/
def distZero : DistFn := fun _ _ => 0

def rowA : Row :=
  { id := 1, name := "alpha task", priority := 2, due_date := "2024-02-01",
    created_at := "2024-01-01T00:00:00", email_context := none, embedding := none }

def rowB : Row :=
  { id := 2, name := "ALPHA again", priority := 1, due_date := "2024-02-02",
    created_at := "2024-01-01T00:00:00", email_context := none, embedding := none }

/-- A store holding two vectorless rows whose names both match the query
`"alpha"` and whose `created_at` values tie. -/
def dbTwo : TaskDatabase :=
  { tables := ["tasks"], indexes := ["tasks_embedding_idx"],
    rows := [rowA, rowB], nextId := 3 }

/-- A row persisted with a 3-dimension vector. -/
def rowV : Row :=
  { id := 1, name := "report task", priority := 2, due_date := "",
    created_at := "2024-01-01T00:00:00", email_context := none,
    embedding := some [1, 0, 0] }

/-- A store previously populated with 3-dimension vectors. -/
def dbV : TaskDatabase :=
  { tables := ["tasks"], indexes := ["tasks_embedding_idx"],
    rows := [rowV], nextId := 2 }

/-- A provider reconfigured for a different dimension: it produces
2-dimension query vectors against `dbV`'s 3-dimension store. -/
def embedMis : Embed := fun _ => some [1, 0]

/-- The `id` a returned record carries (all read paths return `some id`). -/
def idOf (r : TaskRecord) : Nat := r.id.getD 0

/-! Helper lemmas for the claims. -/

theorem head?_take_of_ne_zero {k : Nat} (hk : k ≠ 0) (l : List α) :
    (l.take k).head? = l.head? := by
  cases l with
  | nil => simp
  | cons a l =>
    cases k with
    | zero => exact absurd rfl hk
    | succ k => simp [List.take]

theorem dedup_is_duplicate_congr {l l' : List TaskRecord} (h : l.head? = l'.head?) :
    dedup_is_duplicate l = dedup_is_duplicate l' := by
  cases l with
  | nil =>
    cases l' with
    | nil => rfl
    | cons b t => simp at h
  | cons a t =>
    cases l' with
    | nil => simp at h
    | cons b t' =>
      simp only [List.head?, Option.some.injEq] at h
      simp [dedup_is_duplicate, h]

theorem dedup_is_duplicate_eq_true_iff (l : List TaskRecord) :
    dedup_is_duplicate l = true ↔
      ∃ r rest, l = r :: rest ∧ ∃ d : ℚ, r.similarity_distance = some d ∧ d < dedup_threshold := by
  cases l with
  | nil => simp [dedup_is_duplicate]
  | cons a t =>
    cases hd : a.similarity_distance with
    | none =>
      simp only [dedup_is_duplicate, hd]
      constructor
      · intro h; exact absurd h (by simp)
      · rintro ⟨r, rest, hcons, d, hds, _⟩
        obtain ⟨rfl, rfl⟩ : r = a ∧ rest = t := by
          constructor <;> injection hcons <;> simp_all
        rw [hd] at hds; exact absurd hds (by simp)
    | some d0 =>
      simp only [dedup_is_duplicate, hd, decide_eq_true_eq]
      constructor
      · intro h; exact ⟨a, t, rfl, d0, hd, h⟩
      · rintro ⟨r, rest, hcons, d, hds, hlt⟩
        obtain ⟨rfl, rfl⟩ : r = a ∧ rest = t := by
          constructor <;> injection hcons <;> simp_all
        rw [hd] at hds
        injection hds with hds
        rw [← hds] at hlt
        exact hlt

theorem head?_search_tasks_by_name (db : TaskDatabase) (q : String) {k : Nat}
    (hk : k ≠ 0) :
    (search_tasks_by_name db q k).head? = (search_tasks_by_name db q 1).head? := by
  unfold search_tasks_by_name
  rw [List.head?_map, List.head?_map, head?_take_of_ne_zero hk,
    head?_take_of_ne_zero (by omega)]

theorem find_similar_tasks_head_limit (embed : Embed) (dist : DistFn)
    (db : TaskDatabase) (q : String) {k : Nat} (hk : k ≠ 0) :
    (find_similar_tasks embed dist db q k).head? = (find_similar_tasks embed dist db q 1).head? := by
  unfold find_similar_tasks
  cases embed q with
  | none => exact head?_search_tasks_by_name db q hk
  | some qv =>
    dsimp only
    by_cases hqe : qv.isEmpty = true
    · rw [if_pos hqe, if_pos hqe]
      exact head?_search_tasks_by_name db q hk
    · rw [if_neg hqe, if_neg hqe]
      unfold vector_query
      by_cases hmis : ((vector_rows db).any fun p => p.2.length != qv.length) = true
      · rw [if_pos hmis, if_pos hmis]
        dsimp only
        exact head?_search_tasks_by_name db q hk
      · rw [if_neg hmis, if_neg hmis]
        dsimp only
        rw [List.head?_map, List.head?_map, head?_take_of_ne_zero hk,
          head?_take_of_ne_zero (by omega)]

/-- C1 (counterexample): the ingestion callers do not consult
`find_similar_tasks` with `limit=1` — they pass no limit, so the Python
default `limit=5` applies.  On a store with two rows matching the
candidate's name (no embeddings configured), the list the caller consults
has two entries, while a `limit=1` consult returns one. -/
theorem C1_counterexample :
    ingest_check embedNoneF distZero dbTwo "alpha" ≠
      find_similar_tasks embedNoneF distZero dbTwo "alpha" 1 := by decide

/-- C1 (amended): at ingestion the caller consults `find_similar_tasks` on
the candidate's name with the default `limit=5` and examines only the first
record; the candidate is skipped if and only if the consulted list is
non-empty and its first record's `similarity_distance` is present and
strictly below the `0.1` threshold (so an absent distance never suppresses
an insertion); the skip decision coincides with the one a `limit=1` consult
would give; a skipped candidate leaves the store unchanged, and a
non-skipped one is persisted via `add_task`. -/
theorem C1_ingest_dedup (embed : Embed) (dist : DistFn) (db : TaskDatabase)
    (task : TaskRecord) (t1 t2 : String) :
    ((ingest_task embed dist db task t1 t2).2 = true ↔
      ∃ r rest, ingest_check embed dist db task.name = r :: rest ∧
        ∃ d : ℚ, r.similarity_distance = some d ∧ d < dedup_threshold) ∧
    dedup_is_duplicate (ingest_check embed dist db task.name) =
      dedup_is_duplicate (find_similar_tasks embed dist db task.name 1) ∧
    ((ingest_task embed dist db task t1 t2).2 = true →
      (ingest_task embed dist db task t1 t2).1 = db) ∧
    ((ingest_task embed dist db task t1 t2).2 = false →
      (ingest_task embed dist db task t1 t2).1 = (add_task embed db task none t1 t2).1) := by
  refine ⟨?_, ?_, ?_, ?_⟩
  · by_cases h : dedup_is_duplicate (ingest_check embed dist db task.name) = true
    · rw [show (ingest_task embed dist db task t1 t2).2 = true by
        simp [ingest_task, h]]
      simpa using (dedup_is_duplicate_eq_true_iff _).mp h
    · rw [show (ingest_task embed dist db task t1 t2).2 = false by
        simp [ingest_task, h]]
      constructor
      · intro hfalse; exact absurd hfalse (by simp)
      · intro hex
        exact absurd ((dedup_is_duplicate_eq_true_iff _).mpr hex) h
  · exact dedup_is_duplicate_congr
      (find_similar_tasks_head_limit embed dist db task.name (by omega))
  · intro h
    unfold ingest_task at h ⊢
    by_cases hd : dedup_is_duplicate (ingest_check embed dist db task.name) = true
    · rw [if_pos hd]
    · rw [if_neg hd] at h
      exact absurd h (by simp)
  · intro h
    unfold ingest_task at h ⊢
    by_cases hd : dedup_is_duplicate (ingest_check embed dist db task.name) = true
    · rw [if_pos hd] at h
      exact absurd h (by simp)
    · rw [if_neg hd]

/-- C2: `find_similar_tasks` is total by construction (the Python
`try/except Exception` plus the `if not query_embedding` guard become total
case analysis): a falsy query embedding (`None` from an unconfigured client
or a raised provider call) yields the text fallback, a vector-search error
yields the text fallback, every fallback record has `similarity_distance`
absent, and every vector-path record carries a numeric
`similarity_distance`. -/
theorem C2_find_similar_degrades (embed : Embed) (dist : DistFn) (db : TaskDatabase)
    (q : String) (lim : Nat) :
    (embed q = none →
      find_similar_tasks embed dist db q lim = search_tasks_by_name db q lim) ∧
    (∀ qv err, embed q = some qv → qv ≠ [] →
      vector_query dist db qv lim = Except.error err →
      find_similar_tasks embed dist db q lim = search_tasks_by_name db q lim) ∧
    (∀ r ∈ search_tasks_by_name db q lim, r.similarity_distance = none) ∧
    (∀ qv rs, embed q = some qv → qv ≠ [] →
      vector_query dist db qv lim = Except.ok rs →
      find_similar_tasks embed dist db q lim = rs ∧
        ∀ r ∈ rs, ∃ d : ℚ, r.similarity_distance = some d) := by
  refine ⟨?_, ?_, ?_, ?_⟩
  · intro h
    unfold find_similar_tasks
    rw [h]
  · intro qv err hq hqv hvq
    unfold find_similar_tasks
    rw [hq]
    dsimp only
    rw [if_neg (by simpa using hqv), hvq]
  · intro r hr
    obtain ⟨row, _, hre⟩ := mem_search_tasks_by_name hr
    rw [hre]
    rfl
  · intro qv rs hq hqv hvq
    constructor
    · unfold find_similar_tasks
      rw [hq]
      dsimp only
      rw [if_neg (by simpa using hqv), hvq]
    · intro r hr
      obtain ⟨row, _, _, d, hre⟩ := mem_vector_query hvq hr
      exact ⟨d, by rw [hre]⟩

/-- C2 (witness): with no embedding client configured, a concrete query
against `dbTwo` degrades to the text fallback and its results carry no
distance. -/
theorem C2_find_similar_degrades_witness :
    embedNoneF "alpha" = none ∧
    find_similar_tasks embedNoneF distZero dbTwo "alpha" 5 =
      search_tasks_by_name dbTwo "alpha" 5 ∧
    ∀ r ∈ search_tasks_by_name dbTwo "alpha" 5, r.similarity_distance = none :=
  ⟨rfl, (C2_find_similar_degrades embedNoneF distZero dbTwo "alpha" 5).1 rfl,
    (C2_find_similar_degrades embedNoneF distZero dbTwo "alpha" 5).2.2.1⟩

/-- C3: the code does NOT surface a dimension mismatch.  With a store
holding a 3-dimension vector and a provider now producing 2-dimension
query vectors, the vector query raises (models the libsql error), but
`find_similar_tasks` swallows it (`except Exception:`) and silently falls
back to the text search, returning its (non-empty) results instead of a
fatal error — contradicting the claim and §7 of the spec. -/
theorem C3_dimension_mismatch_degrades :
    vector_query distZero dbV [1, 0] 5 = Except.error "vector dimension mismatch" ∧
    find_similar_tasks embedMis distZero dbV "report task" 5 =
      search_tasks_by_name dbV "report task" 5 ∧
    find_similar_tasks embedMis distZero dbV "report task" 5 ≠ [] := by
  refine ⟨by rfl, by decide, by decide⟩

/-- C4 (counterexample): `ORDER BY created_at DESC` imposes no id
tie-break.  On a store with two rows sharing one `created_at`, `get_recent`
returns the LOWER id first (table-scan order preserved by the sort), so the
claimed "higher id comes first" tie-break is false. -/
theorem C4_counterexample :
    ¬ ((get_recent_tasks dbTwo 10).Pairwise fun a b =>
        a.created_at = b.created_at → idOf b < idOf a) := by decide

/-- C4 (amended): for every store whose rows carry strictly increasing ids
(the AUTOINCREMENT invariant), `get_recent` returns stored records ordered
by `created_at` descending; when two records have equal `created_at` the
one with the LOWER id (earlier insertion, earlier in table-scan order)
comes first; the result holds `min limit n` records, each the image of a
stored row. -/
theorem C4_get_recent_ordered (db : TaskDatabase) (lim : Nat)
    (hids : db.rows.Pairwise fun a b => a.id < b.id) :
    ((get_recent_tasks db lim).Pairwise fun a b =>
      text_le b.created_at a.created_at = true) ∧
    ((get_recent_tasks db lim).Pairwise fun a b =>
      a.created_at = b.created_at → idOf a < idOf b) ∧
    (get_recent_tasks db lim).length = min lim db.rows.length ∧
    (∀ r ∈ get_recent_tasks db lim, ∃ row ∈ db.rows, r = row_to_record row) := by
  have htot : ∀ x y : Row, recencyLe x y = false → recencyLe y x = true := by
    intro x y h
    exact charListLe_false_of _ _ h
  have htrans : ∀ x y z : Row,
      recencyLe x y = true → recencyLe y z = true → recencyLe x z = true := by
    intro x y z h1 h2
    exact charListLe_trans h2 h1
  have hsorted := @pairwise_le_sortBy Row recencyLe db.rows htot htrans
  have hties : (sortBy recencyLe db.rows).Pairwise fun a b =>
      a.created_at = b.created_at → a.id < b.id := by
    refine pairwise_sortBy db.rows ?_
      (hids.imp fun h => fun (_ : _ = _) => h)
    intro x y h heq
    have hdata : y.created_at.data = x.created_at.data := congrArg String.data heq
    have : recencyLe x y = true := charListLe_eq_of_eq hdata
    rw [h] at this
    exact absurd this (by simp)
  refine ⟨?_, ?_, ?_, fun r hr => mem_get_recent_tasks hr⟩
  · unfold get_recent_tasks
    refine (List.pairwise_map).mpr ?_
    exact (hsorted.sublist (List.take_sublist lim _))
  · unfold get_recent_tasks
    refine (List.pairwise_map).mpr ?_
    refine ((hties.sublist (List.take_sublist lim _)).imp ?_)
    intro a b h heq
    exact h heq
  · unfold get_recent_tasks
    rw [List.length_map, List.length_take, length_sortBy]

/-- C4 (witness): the amended ordering and tie-break, instantiated on the
concrete two-row store `dbTwo`. -/
theorem C4_get_recent_ordered_witness :
    (dbTwo.rows.Pairwise fun a b => a.id < b.id) ∧
    ((get_recent_tasks dbTwo 10).Pairwise fun a b =>
      a.created_at = b.created_at → idOf a < idOf b) :=
  ⟨by decide, (C4_get_recent_ordered dbTwo 10 (by decide)).2.1⟩

/-- C5: `add_task` always persists exactly one new row, whatever the
embedding outcome: on `None` (unconfigured client or raised provider call)
the row is stored with no vector, on a successful (nonempty — the provider's
vectors have the schema's fixed positive dimension) embedding the row is
stored with that vector, and the returned `TaskRecord` carries the assigned
id (`cursor.lastrowid`). -/
theorem C5_add_always_persists (embed : Embed) (db : TaskDatabase)
    (task : TaskRecord) (ctx : Option String) (t1 t2 : String) :
    (add_task embed db task ctx t1 t2).1.rows.length = db.rows.length + 1 ∧
    (∃ row, (add_task embed db task ctx t1 t2).1.rows = db.rows ++ [row] ∧
      row.id = db.nextId ∧ row.name = task.name ∧ row.created_at = t1 ∧
      (embed (embedding_text task.name ctx) = none → row.embedding = none) ∧
      (∀ v, embed (embedding_text task.name ctx) = some v → v ≠ [] →
        row.embedding = some v)) ∧
    (add_task embed db task ctx t1 t2).2.id = some db.nextId := by
  refine ⟨by simp [add_task],
    ⟨{ id := db.nextId, name := task.name, priority := task.priority,
       due_date := task.due_date, created_at := t1, email_context := ctx,
       embedding := if pyTruthy (embed (embedding_text task.name ctx))
         then embed (embedding_text task.name ctx) else none },
      rfl, rfl, rfl, rfl, ?_, ?_⟩, rfl⟩
  · intro h
    rw [h]
    rfl
  · intro v hv hne
    simp only [hv]
    simp [pyTruthy, List.isEmpty_iff, hne]

/-- A candidate task as the ingestion callers build it: the caller supplies
its own `created_at`, which `add_task` ignores. -/
def candTask : TaskRecord :=
  { name := "write report", priority := 1, due_date := "2024-03-01",
    created_at := "2023-12-31T23:59:59" }

/-- An empty store (all `TaskDatabase` fields at their defaults). -/
def emptyDb : TaskDatabase := {}

/-- C5 (witness): a concrete insertion with no embedding client still
persists exactly one row and returns the assigned id. -/
theorem C5_add_always_persists_witness :
    (add_task embedNoneF dbTwo candTask none "2024-01-02T00:00:00"
      "2024-01-02T00:00:01").1.rows.length = dbTwo.rows.length + 1 ∧
    (add_task embedNoneF dbTwo candTask none "2024-01-02T00:00:00"
      "2024-01-02T00:00:01").2.id = some dbTwo.nextId :=
  ⟨(C5_add_always_persists embedNoneF dbTwo candTask none "2024-01-02T00:00:00"
      "2024-01-02T00:00:01").1,
    (C5_add_always_persists embedNoneF dbTwo candTask none "2024-01-02T00:00:00"
      "2024-01-02T00:00:01").2.2⟩

/-- C7 (counterexample): `add_task` calls `datetime.now().isoformat()`
twice — once inside the `INSERT` and once when building the returned
`TaskRecord`.  When the two readings differ, the returned record's
`created_at` equals no stored row's `created_at`, refuting "the returned
TaskRecord carries that same assigned created_at value as the one stored in
the row". -/
theorem C7_counterexample :
    (add_task embedNoneF emptyDb candTask none "2024-01-01T00:00:00"
      "2024-01-01T00:00:01").2.created_at ∉
      ((add_task embedNoneF emptyDb candTask none "2024-01-01T00:00:00"
        "2024-01-01T00:00:01").1.rows.map fun r => r.created_at) := by decide

/-- C7 (amended): the `created_at` persisted by `add_task` is the store's
insert-time clock reading (`t1`), ignoring any `created_at` supplied on the
candidate; the returned `TaskRecord` carries the reading of a second
`datetime.now()` call (`t2`) made while building the return value, which
need not equal the stored one. -/
theorem C7_created_at_store_clock (embed : Embed) (db : TaskDatabase)
    (task : TaskRecord) (ctx : Option String) (t1 t2 : String) :
    (∃ row, (add_task embed db task ctx t1 t2).1.rows = db.rows ++ [row] ∧
      row.created_at = t1) ∧
    (∀ c, add_task embed db { task with created_at := c } ctx t1 t2 =
      add_task embed db task ctx t1 t2) ∧
    (add_task embed db task ctx t1 t2).2.created_at = t2 :=
  ⟨⟨_, rfl, rfl⟩, fun _ => rfl, rfl⟩

/-- C8: `complete_task` is `return self.delete_task(task_id)` — the two
operations agree on the result Boolean and the final store state for every
input and every starting state. -/
theorem C8_complete_eq_delete (db : TaskDatabase) (task_id : Nat) :
    complete_task db task_id = delete_task db task_id := rfl

/-- C9: `_create_tables` only runs `CREATE TABLE IF NOT EXISTS` and
`CREATE INDEX IF NOT EXISTS`: a second run equals the first (no duplicate
schema objects), rows and the id counter are untouched, and a run against
an already-provisioned store changes nothing. -/
theorem C9_create_tables_idempotent (db : TaskDatabase) :
    create_tables (create_tables db) = create_tables db ∧
    (create_tables db).rows = db.rows ∧
    (create_tables db).nextId = db.nextId ∧
    ("tasks" ∈ db.tables → (create_tables db).tables = db.tables) ∧
    ("tasks_embedding_idx" ∈ db.indexes →
      (create_tables db).indexes = db.indexes) := by
  refine ⟨?_, rfl, rfl, ?_, ?_⟩
  · unfold create_tables
    by_cases h1 : "tasks" ∈ db.tables <;>
      by_cases h2 : "tasks_embedding_idx" ∈ db.indexes <;>
        simp [h1, h2]
  · intro h
    simp [create_tables, h]
  · intro h
    simp [create_tables, h]

theorem find_similar_tasks_embedding_none {embed : Embed} {dist : DistFn}
    {db : TaskDatabase} {q : String} {lim : Nat} {r : TaskRecord}
    (h : r ∈ find_similar_tasks embed dist db q lim) : r.embedding = none := by
  unfold find_similar_tasks at h
  cases hq : embed q with
  | none =>
    rw [hq] at h
    obtain ⟨row, _, hre⟩ := mem_search_tasks_by_name h
    rw [hre]
    rfl
  | some qv =>
    rw [hq] at h
    dsimp only at h
    by_cases hqe : qv.isEmpty = true
    · rw [if_pos hqe] at h
      obtain ⟨row, _, hre⟩ := mem_search_tasks_by_name h
      rw [hre]
      rfl
    · rw [if_neg hqe] at h
      cases hvq : vector_query dist db qv lim with
      | error e =>
        rw [hvq] at h
        obtain ⟨row, _, hre⟩ := mem_search_tasks_by_name h
        rw [hre]
        rfl
      | ok rs =>
        rw [hvq] at h
        obtain ⟨row, _, _, d, hre⟩ := mem_vector_query hvq h
        rw [hre]
        rfl

/-- C10: no read path returns stored vectors.  Records from
`get_recent_tasks`, from the text fallback and from `find_similar_tasks`
(either path) all have `embedding = None` — their `SELECT` lists omit the
column — while the record returned directly by `add_task` carries exactly
the provider's embedding value. -/
theorem C10_reads_omit_embedding (embed : Embed) (dist : DistFn)
    (db : TaskDatabase) (q : String) (lim : Nat) :
    (∀ r ∈ get_recent_tasks db lim, r.embedding = none) ∧
    (∀ r ∈ search_tasks_by_name db q lim, r.embedding = none) ∧
    (∀ r ∈ find_similar_tasks embed dist db q lim, r.embedding = none) ∧
    (∀ task ctx t1 t2, (add_task embed db task ctx t1 t2).2.embedding =
      embed (embedding_text task.name ctx)) := by
  refine ⟨?_, ?_, ?_, fun task ctx t1 t2 => rfl⟩
  · intro r hr
    obtain ⟨row, _, hre⟩ := mem_get_recent_tasks hr
    rw [hre]
    rfl
  · intro r hr
    obtain ⟨row, _, hre⟩ := mem_search_tasks_by_name hr
    rw [hre]
    rfl
  · intro r hr
    exact find_similar_tasks_embedding_none hr

theorem filter_length_lt_iff {l : List Row} {i : Nat} :
    ((l.filter fun r => r.id != i).length < l.length) ↔ ∃ row ∈ l, row.id = i := by
  constructor
  · intro h
    by_contra hno
    push_neg at hno
    have heq : (l.filter fun r => r.id != i) = l :=
      List.filter_eq_self.mpr fun b hb => bne_iff_ne.mpr (hno b hb)
    rw [heq] at h
    exact Nat.lt_irrefl _ h
  · rintro ⟨row, hrow, hid⟩
    have hsub : (l.filter fun r => r.id != i).length ≤ l.length :=
      List.length_filter_le _ l
    rcases Nat.lt_or_ge (l.filter fun r => r.id != i).length l.length with h | h
    · exact h
    · exfalso
      have heq : (l.filter fun r => r.id != i) = l :=
        (List.filter_sublist l).eq_of_length (Nat.le_antisymm hsub h)
      have hrow2 : row ∈ l.filter fun r => r.id != i := by rw [heq]; exact hrow
      have hp := List.of_mem_filter hrow2
      rw [bne_iff_ne] at hp
      exact hp hid

theorem filter_ne_length_of_nodup {l : List Row} {i : Nat}
    (hnd : (l.map fun r => r.id).Nodup) {row : Row} (hrow : row ∈ l)
    (hid : row.id = i) :
    (l.filter fun r => r.id != i).length + 1 = l.length := by
  induction l with
  | nil => exact absurd hrow (List.not_mem_nil row)
  | cons a l ih =>
    rw [List.map_cons, List.nodup_cons] at hnd
    obtain ⟨hanotin, hnd⟩ := hnd
    rcases List.mem_cons.mp hrow with h | h
    · have ha : a.id = i := by rw [← h]; exact hid
      have hkeep : (l.filter fun r => r.id != i) = l := by
        refine List.filter_eq_self.mpr ?_
        intro b hb
        refine bne_iff_ne.mpr ?_
        intro hbi
        exact hanotin (by
          rw [ha, ← hbi]
          exact List.mem_map.mpr ⟨b, hb, rfl⟩)
      rw [List.filter_cons, if_neg (by simp [ha]), hkeep]
      rfl
    · have ha : a.id ≠ i := by
        intro hai
        refine hanotin ?_
        rw [hai, ← hid]
        exact List.mem_map.mpr ⟨row, h, rfl⟩
      have hstep := ih hnd h
      rw [List.filter_cons, if_pos (bne_iff_ne.mpr ha)]
      simp only [List.length_cons]
      omega

/-- C6: `delete_task` returns `true` iff a row with the given id existed
(`cursor.rowcount > 0`); with the PRIMARY KEY uniqueness invariant it
removes exactly that row; deleting a non-existent id returns `false` and
leaves the store unchanged; and after any delete, neither `get_recent_tasks`
nor `find_similar_tasks` (either path) ever returns a record with that
id. -/
theorem C6_delete_spec (db : TaskDatabase) (i : Nat)
    (hnodup : (db.rows.map fun r => r.id).Nodup) :
    ((delete_task db i).2 = true ↔ ∃ row ∈ db.rows, row.id = i) ∧
    ((∀ row ∈ db.rows, row.id ≠ i) → delete_task db i = (db, false)) ∧
    (∀ row ∈ db.rows, row.id = i →
      (delete_task db i).1.rows.length + 1 = db.rows.length) ∧
    (∀ r ∈ (delete_task db i).1.rows, r ∈ db.rows ∧ r.id ≠ i) ∧
    (∀ r ∈ db.rows, r.id ≠ i → r ∈ (delete_task db i).1.rows) ∧
    (∀ lim, ∀ rec ∈ get_recent_tasks (delete_task db i).1 lim, rec.id ≠ some i) ∧
    (∀ embed dist q lim,
      ∀ rec ∈ find_similar_tasks embed dist (delete_task db i).1 q lim,
        rec.id ≠ some i) := by
  have hrows : (delete_task db i).1.rows = db.rows.filter fun r => r.id != i := rfl
  refine ⟨?_, ?_, ?_, ?_, ?_, ?_, ?_⟩
  · simp only [delete_task, decide_eq_true_eq]
    exact filter_length_lt_iff
  · intro hall
    have heq : (db.rows.filter fun r => r.id != i) = db.rows :=
      List.filter_eq_self.mpr fun b hb => bne_iff_ne.mpr (hall b hb)
    unfold delete_task
    rw [heq]
    simp
  · intro row hrow hid
    rw [hrows]
    exact filter_ne_length_of_nodup hnodup hrow hid
  · intro r hr
    rw [hrows] at hr
    have hp := List.of_mem_filter hr
    exact ⟨List.mem_of_mem_filter hr, bne_iff_ne.mp hp⟩
  · intro r hr hne
    rw [hrows]
    exact List.mem_filter.mpr ⟨hr, bne_iff_ne.mpr hne⟩
  · intro lim rec hrec
    obtain ⟨row, hrow, hre⟩ := mem_get_recent_tasks hrec
    rw [hrows] at hrow
    have hp := List.of_mem_filter hrow
    have hne : row.id ≠ i := bne_iff_ne.mp hp
    rw [hre]
    simp [row_to_record, hne]
  · intro embed dist q lim rec hrec
    obtain ⟨row, hrow, hid⟩ := mem_find_similar_tasks hrec
    rw [hrows] at hrow
    have hp := List.of_mem_filter hrow
    have hne : row.id ≠ i := bne_iff_ne.mp hp
    rw [hid]
    simp [hne]

/-- C6 (witness): deleting id 1 from the concrete two-row store reports
`true`. -/
theorem C6_delete_spec_witness :
    ((dbTwo.rows.map fun r => r.id).Nodup) ∧ (delete_task dbTwo 1).2 = true :=
  ⟨by decide, (C6_delete_spec dbTwo 1 (by decide)).1.mpr
    ⟨rowA, by decide, rfl⟩⟩

/-- The AUTOINCREMENT invariant assumed by the claims above is established
and preserved by the write path: `add_task` keeps row ids strictly
increasing and below the id counter. -/
theorem add_task_preserves_id_mono (embed : Embed) (db : TaskDatabase)
    (task : TaskRecord) (ctx : Option String) (t1 t2 : String)
    (hmono : db.rows.Pairwise fun a b => a.id < b.id)
    (hlt : ∀ r ∈ db.rows, r.id < db.nextId) :
    ((add_task embed db task ctx t1 t2).1.rows.Pairwise fun a b => a.id < b.id) ∧
    (∀ r ∈ (add_task embed db task ctx t1 t2).1.rows,
      r.id < (add_task embed db task ctx t1 t2).1.nextId) := by
  constructor
  · refine List.pairwise_append.mpr ⟨hmono, by simp, ?_⟩
    intro a ha b hb
    simp only [List.mem_singleton] at hb
    rw [hb]
    exact hlt a ha
  · intro r hr
    rcases List.mem_append.mp hr with h | h
    · exact Nat.lt_succ_of_lt (hlt r h)
    · simp only [List.mem_singleton] at h
      rw [h]
      exact Nat.lt_succ_self _

/-- The invariant also established at the start (`emptyDb`) and preserved by
`delete_task`. -/
theorem delete_task_preserves_id_mono (db : TaskDatabase) (i : Nat)
    (hmono : db.rows.Pairwise fun a b => a.id < b.id) :
    (delete_task db i).1.rows.Pairwise fun a b => a.id < b.id :=
  hmono.sublist (List.filter_sublist db.rows)
